import Mathlib

set_option maxHeartbeats 1000000

/-!
Shallow embedding of the Pybricks BLE broadcast/observe subsystem
(pybricks/common/pb_type_ble.c) and proofs about its value codec,
advertising payload builder, observation table callback, and lifecycle.

Byte buffers are modelled as lists of natural numbers; every read from a
buffer goes through a masking accessor that reduces modulo 256, matching
the uint8 cells of the C arrays.  Machine integer arithmetic is made
explicit with % 2^w where the C code relies on fixed-width wrapping.
Single-precision floats are modelled by their 32-bit little-endian wire
representation (the C code only ever memcpy-s the 4 bytes of the float
and reinterprets them on decode, so the bit pattern is the exact
observable content).  MicroPython exceptions are modelled with Except.
-/

/-- Errors surfaced by the module: MicroPython ValueError, TypeError,
OverflowError, RuntimeError (the generic corrupt-data error raised by
pb_module_ble_decode) and PBIO_ERROR_INVALID_ARG raised via pb_assert. -/
inductive PbError where
  | valueError
  | typeError
  | overflowError
  | runtimeError
  | invalidArg
deriving DecidableEq

deriving instance DecidableEq for Except

/-- OBSERVED_DATA_MAX_SIZE from pb_type_ble.c: 31 (max adv data) minus 5 (overhead). -/
def OBSERVED_DATA_MAX_SIZE : Nat := 26

/-- MAX_CHANNEL_NUMBER from pb_type_ble.c (one less than the number of channels). -/
def MAX_CHANNEL_NUMBER : Nat := 15

/-- The manufacturer-specific advertising data type marker 0xFF. -/
def MFG_SPECIFIC : Nat := 0xFF

/-- The fixed LEGO company identifier 0x0397. -/
def LEGO_CID : Nat := 0x0397

/-- The non-connectable undirected advertisement PDU type from pbdrv/bluetooth.h
(the numeric value of the enum constant; only equality with it matters here). -/
def PBDRV_BLUETOOTH_AD_TYPE_ADV_NONCONN_IND : Nat := 3

/-- Reads one uint8 cell of a byte buffer: out-of-range reads yield 0 and
every read is reduced modulo 256, modelling the uint8 arrays of the C code. -/
def byteAt (data : List Nat) (i : Nat) : Nat :=
  data.getD i 0 % 256

/-- pbio_get_uint16_le: reads a little-endian 16-bit value at offset i. -/
def pbio_get_uint16_le (data : List Nat) (i : Nat) : Nat :=
  byteAt data i + 256 * byteAt data (i + 1)

/-- pbio_get_uint32_le: reads a little-endian 32-bit value at offset i. -/
def pbio_get_uint32_le (data : List Nat) (i : Nat) : Nat :=
  byteAt data i + 256 * byteAt data (i + 1) + 65536 * byteAt data (i + 2) +
    16777216 * byteAt data (i + 3)

/-- Little-endian byte list of the w low-order bytes of a natural number. -/
def natToLeBytes : Nat → Nat → List Nat
  | _, 0 => []
  | u, w + 1 => u % 256 :: natToLeBytes (u / 256) w

/-- Little-endian two's-complement byte list of an integer at width w, exactly
what memcpy of an int8_t/int16_t/int32_t produces on a little-endian machine. -/
def intToLeBytes (v : Int) (w : Nat) : List Nat :=
  natToLeBytes (v % ((2 : Int) ^ (8 * w))).toNat w

/-- Reinterpretation of a uint8 as an int8_t (two's complement). -/
def int8OfByte (b : Nat) : Int :=
  if b < 128 then (b : Int) else (b : Int) - 256

/-- Reinterpretation of a uint16 as an int16_t (two's complement). -/
def int16OfU16 (u : Nat) : Int :=
  if u < 32768 then (u : Int) else (u : Int) - 65536

/-- Reinterpretation of a uint32 as an int32_t (two's complement). -/
def int32OfU32 (u : Nat) : Int :=
  if u < 2147483648 then (u : Int) else (u : Int) - 4294967296

/-- Reads n consecutive uint8 cells starting at offset i. -/
def readBytes (data : List Nat) (i : Nat) : Nat → List Nat
  | 0 => []
  | n + 1 => byteAt data i :: readBytes data (i + 1) n

/-- The seven value kinds accepted by pb_module_ble_encode.  A float is
carried as its 32-bit single-precision bit pattern (the code memcpy-s the
4 bytes of the C float and reinterprets them on decode); str and bytes
carry their raw byte contents. -/
inductive Value where
  | none
  | vtrue
  | vfalse
  | int (v : Int)
  | float (bits : Nat)
  | str (bs : List Nat)
  | bytes (bs : List Nat)
deriving DecidableEq

/-- Well-formedness of a value as the C code would hold it: a float bit
pattern fits in 32 bits and str/bytes cells are genuine bytes. -/
def validValue : Value → Bool
  | Value.float bits => bits < 4294967296
  | Value.str bs => bs.all (fun b => b < 256)
  | Value.bytes bs => bs.all (fun b => b < 256)
  | _ => true

/-- pb_module_ble_append: raises ValueError when the record would not fit in
the 26-byte budget, otherwise writes the header byte (type << 5 | size)
followed by the payload at the given index and returns the next free index.
The bytes written at positions index..(next index - 1) are returned as a list. -/
def pb_module_ble_append (index : Nat) (src : List Nat) (t : Nat) :
    Except PbError (List Nat × Nat) :=
  let next_index := index + src.length + 1
  if OBSERVED_DATA_MAX_SIZE < next_index then Except.error PbError.valueError
  else Except.ok (Nat.lor (t <<< 5) src.length :: src, next_index)

/-- pb_module_ble_encode: dispatches on the value kind in the order of the C
code (None, True, False, int, float, buffer) and appends the encoded record.
Integers take the smallest of 1, 2 or 4 little-endian two's-complement bytes
(the cascade of INT8/INT16/INT32 range checks) and raise OverflowError
outside the 32-bit signed range. -/
def pb_module_ble_encode (index : Nat) (arg : Value) : Except PbError (List Nat × Nat) :=
  match arg with
  | Value.none => pb_module_ble_append index [] 0
  | Value.vtrue => pb_module_ble_append index [] 1
  | Value.vfalse => pb_module_ble_append index [] 2
  | Value.int v =>
    if -128 ≤ v ∧ v ≤ 127 then pb_module_ble_append index (intToLeBytes v 1) 3
    else if -32768 ≤ v ∧ v ≤ 32767 then pb_module_ble_append index (intToLeBytes v 2) 3
    else if -2147483648 ≤ v ∧ v ≤ 2147483647 then pb_module_ble_append index (intToLeBytes v 4) 3
    else Except.error PbError.overflowError
  | Value.float bits => pb_module_ble_append index (natToLeBytes bits 4) 4
  | Value.str bs => pb_module_ble_append index bs 5
  | Value.bytes bs => pb_module_ble_append index bs 6

/-- pb_module_ble_decode: reads the header byte at the cursor, splits it into
the 5-bit size (header & 0x1F) and the 3-bit type (header >> 5), advances the
cursor past the header, then dispatches exactly as the C switch does.  The
asserts on the size of None/True/False records compile out of release
firmware and are modelled as no-ops.  Note that the Float case of the C
switch reads 4 bytes without ever checking the 5-bit size field. -/
def pb_module_ble_decode (data : List Nat) (index : Nat) : Except PbError (Value × Nat) :=
  let size := byteAt data index % 32
  let data_type := byteAt data index / 32
  let i := index + 1
  if data_type = 0 then Except.ok (Value.none, i)
  else if data_type = 1 then Except.ok (Value.vtrue, i)
  else if data_type = 2 then Except.ok (Value.vfalse, i)
  else if data_type = 3 then
    if size = 1 then Except.ok (Value.int (int8OfByte (byteAt data i)), i + 1)
    else if size = 2 then Except.ok (Value.int (int16OfU16 (pbio_get_uint16_le data i)), i + 2)
    else if size = 4 then Except.ok (Value.int (int32OfU32 (pbio_get_uint32_le data i)), i + 4)
    else Except.error PbError.runtimeError
  else if data_type = 4 then Except.ok (Value.float (pbio_get_uint32_le data i), i + 4)
  else if data_type = 5 then Except.ok (Value.str (readBytes data i size), i + size)
  else if data_type = 6 then Except.ok (Value.bytes (readBytes data i size), i + size)
  else Except.error PbError.runtimeError

/-- One slot of the observation table (observed_data_t): last RSSI, claimed
payload size, and a 26-byte data buffer. -/
structure ObservedData where
  rssi : Int
  size : Nat
  data : List Nat
deriving DecidableEq

/-- A zeroed observation slot, as produced by the zero-initializing allocator. -/
def zeroObservedData : ObservedData :=
  { rssi := 0, size := 0, data := List.replicate OBSERVED_DATA_MAX_SIZE 0 }

/-- The module-level state: the observed_data pointer (none once released),
num_observed_data, and the two driver activity flags that
pbdrv_bluetooth_start/stop_broadcasting/observing toggle. -/
structure BleGlobals where
  observed_data : Option (List ObservedData)
  num_observed_data : Nat
  broadcasting : Bool
  observing : Bool
deriving DecidableEq

/-- The entry written into the table by handle_observe_event: rssi from the
report, size = data[0] - 4 in uint8 arithmetic, and the data buffer filled by
memcpy of OBSERVED_DATA_MAX_SIZE bytes starting at raw[5] (the C memcpy
always copies the full 26 bytes of capacity). -/
def newEntry (raw : List Nat) (rssi : Int) : ObservedData :=
  { rssi := rssi,
    size := (byteAt raw 0 + 252) % 256,
    data := (List.range OBSERVED_DATA_MAX_SIZE).map fun k => byteAt raw (5 + k) }

/-- handle_observe_event: the driver advertisement callback.  Requires a
non-connectable undirected PDU, length at least 5, the manufacturer-specific
marker at byte 1 and the LEGO company id little-endian at bytes 2..3; then
drops silently if byte 4 (the channel) is not below num_observed_data, and
otherwise overwrites that channel's slot in place. -/
def handle_observe_event (st : BleGlobals) (event_type : Nat) (raw : List Nat)
    (length : Nat) (rssi : Int) : BleGlobals :=
  if event_type = PBDRV_BLUETOOTH_AD_TYPE_ADV_NONCONN_IND ∧ 5 ≤ length ∧
      byteAt raw 1 = MFG_SPECIFIC ∧ pbio_get_uint16_le raw 2 = LEGO_CID then
    if st.num_observed_data ≤ byteAt raw 4 then st
    else
      { st with observed_data := some ((st.observed_data.getD []).set (byteAt raw 4) (newEntry raw rssi)) }
  else st

/-- The acceptance condition of handle_observe_event, including the channel
range check, as one predicate. -/
def adMatch (st : BleGlobals) (event_type : Nat) (raw : List Nat) (length : Nat) : Prop :=
  event_type = PBDRV_BLUETOOTH_AD_TYPE_ADV_NONCONN_IND ∧ 5 ≤ length ∧
    byteAt raw 1 = MFG_SPECIFIC ∧ pbio_get_uint16_le raw 2 = LEGO_CID ∧
    byteAt raw 4 < st.num_observed_data

instance (st : BleGlobals) (event_type : Nat) (raw : List Nat) (length : Nat) :
    Decidable (adMatch st event_type raw length) := by
  unfold adMatch
  infer_instance

/-- The encoding loop of pb_module_ble_broadcast: encodes the arguments in
order, threading the running index, and stops at the first raised error. -/
def encodeAllFrom : Nat → List Value → Except PbError (List Nat × Nat)
  | index, [] => Except.ok ([], index)
  | index, a :: rest =>
    match pb_module_ble_encode index a with
    | Except.error e => Except.error e
    | Except.ok (rec, next) =>
      match encodeAllFrom next rest with
      | Except.error e => Except.error e
      | Except.ok (d, fin) => Except.ok (rec ++ d, fin)

/-- Size of the record a value encodes to on its own (0 when it cannot be
encoded at all); used only for stating the payload budget property. -/
def recordLen (a : Value) : Nat :=
  match pb_module_ble_encode 0 a with
  | Except.ok (rec, _) => rec.length
  | Except.error _ => 0

/-- pb_module_ble_broadcast: encodes all arguments starting at index 0 into
the area after the 5-byte prefix, then builds the prefix
[index + 4, 0xFF, cid lo, cid hi, broadcast channel] and hands the payload to
pbdrv_bluetooth_start_broadcasting (modelled by the broadcasting flag and the
returned payload).  Any exception raised while encoding aborts the call
before the driver request is made. -/
def pb_module_ble_broadcast (st : BleGlobals) (broadcast_channel : Nat)
    (args : List Value) : Except PbError (BleGlobals × List Nat) :=
  match encodeAllFrom 0 args with
  | Except.error e => Except.error e
  | Except.ok (data, index) =>
    Except.ok ({ st with broadcasting := true },
      (index + 4) :: MFG_SPECIFIC :: (LEGO_CID % 256) :: (LEGO_CID / 256) ::
        broadcast_channel :: data)

/-- The driver state after a broadcast call: unchanged when the call raised
before reaching pbdrv_bluetooth_start_broadcasting. -/
def broadcastStep (st : BleGlobals) (broadcast_channel : Nat) (args : List Value) :
    BleGlobals :=
  match pb_module_ble_broadcast st broadcast_channel args with
  | Except.ok (st2, _) => st2
  | Except.error _ => st

/-- The decode loop of pb_module_ble_observe: at most fuel iterations (the C
for loop bounds i by OBSERVED_DATA_MAX_SIZE), stopping as soon as the cursor
reaches the stored size; also counts how many pb_module_ble_decode calls were
made. -/
def observeDecodeLoop (d : ObservedData) :
    Nat → Nat → List Value → Nat → Except PbError (List Value) × Nat
  | 0, _, acc, steps => (Except.ok acc.reverse, steps)
  | fuel + 1, index, acc, steps =>
    if d.size ≤ index then (Except.ok acc.reverse, steps)
    else
      match pb_module_ble_decode d.data index with
      | Except.error e => (Except.error e, steps + 1)
      | Except.ok (v, index2) => observeDecodeLoop d fuel index2 (v :: acc) (steps + 1)

/-- The read pb_module_ble_observe performs on one slot, with its step count. -/
def pb_module_ble_observe_read (d : ObservedData) : Except PbError (List Value) × Nat :=
  observeDecodeLoop d OBSERVED_DATA_MAX_SIZE 0 [] 0

/-- pb_module_ble_observe: rejects channels below 0 or at least
num_observed_data with PBIO_ERROR_INVALID_ARG before touching anything, then
enables observing in the driver, reads the channel's slot and decodes it. -/
def pb_module_ble_observe (st : BleGlobals) (channel : Int) :
    Except PbError (BleGlobals × Int × List Value) :=
  if channel < 0 ∨ (st.num_observed_data : Int) ≤ channel then
    Except.error PbError.invalidArg
  else
    let st1 := { st with observing := true }
    let ch_data := (st.observed_data.getD []).getD channel.toNat zeroObservedData
    match (pb_module_ble_observe_read ch_data).1 with
    | Except.error e => Except.error e
    | Except.ok vals => Except.ok (st1, ch_data.rssi, vals)

/-- The per-instance object (pb_obj_BLE_t): its broadcast channel and the
number of observed_data_t slots its trailing flexible array actually holds. -/
structure BleInstance where
  broadcast_channel : Nat
  allocated_slots : Nat
deriving DecidableEq

/-- Models the MicroPython allocator macro mp_obj_malloc_var from py/obj.h
(code of this repository outside src/): it allocates sizeof(struct) plus
var_num * sizeof(var_type) bytes of zeroed memory, so the trailing flexible
array member receives exactly var_num elements.  pb_type_BLE_new passes
last_observe_channel as var_num. -/
def mp_obj_malloc_var_slots (var_num : Nat) : List ObservedData :=
  List.replicate var_num zeroObservedData

/-- pb_type_BLE_new: validates both channel arguments against 0..15 with
ValueError, allocates the instance with mp_obj_malloc_var (passing
last_observe_channel as the slot count), and publishes the table pointer and
num_observed_data = last_observe_channel + 1 in the module globals. -/
def pb_type_BLE_new (broadcast_channel last_observe_channel : Int) :
    Except PbError (BleInstance × BleGlobals) :=
  if broadcast_channel < 0 ∨ (MAX_CHANNEL_NUMBER : Int) < broadcast_channel then
    Except.error PbError.valueError
  else if last_observe_channel < 0 ∨ (MAX_CHANNEL_NUMBER : Int) < last_observe_channel then
    Except.error PbError.valueError
  else
    Except.ok
      ({ broadcast_channel := broadcast_channel.toNat,
         allocated_slots := last_observe_channel.toNat },
       { observed_data := some (mp_obj_malloc_var_slots last_observe_channel.toNat),
         num_observed_data := last_observe_channel.toNat + 1,
         broadcasting := false,
         observing := false })

/-- pb_type_BLE_cleanup: stops driver broadcasting and observing, clears the
observed_data pointer and zeroes num_observed_data. -/
def pb_type_BLE_cleanup (st : BleGlobals) : BleGlobals :=
  { st with broadcasting := false, observing := false,
            observed_data := Option.none, num_observed_data := 0 }

/-- The smallest of the widths 1, 2, 4 whose signed range contains v
(defaulting to 4), mirroring the spec's width-selection rule. -/
def intWidth (v : Int) : Nat :=
  if -128 ≤ v ∧ v ≤ 127 then 1
  else if -32768 ≤ v ∧ v ≤ 32767 then 2
  else 4

/-- v is losslessly representable as a w-byte two's-complement integer. -/
def fitsWidth (v : Int) (w : Nat) : Prop :=
  -(2 ^ (8 * w - 1)) ≤ v ∧ v < 2 ^ (8 * w - 1)

instance (v : Int) (w : Nat) : Decidable (fitsWidth v w) := by
  unfold fitsWidth
  infer_instance

theorem byteAt_lt (data : List Nat) (i : Nat) : byteAt data i < 256 :=
  Nat.mod_lt _ (by norm_num)

theorem byteAt_cons_succ (a : Nat) (l : List Nat) (i : Nat) :
    byteAt (a :: l) (i + 1) = byteAt l i := by
  simp [byteAt]

theorem byteAt_cons_zero (a : Nat) (l : List Nat) : byteAt (a :: l) 0 = a % 256 := by
  simp [byteAt]

theorem natToLeBytes_length (w : Nat) : ∀ u : Nat, (natToLeBytes u w).length = w := by
  induction w with
  | zero => intro u; rfl
  | succ n ih => intro u; simp [natToLeBytes, ih]

theorem intToLeBytes_length (v : Int) (w : Nat) : (intToLeBytes v w).length = w := by
  simp [intToLeBytes, natToLeBytes_length]

theorem readBytes_cons (a : Nat) (l : List Nat) (n : Nat) :
    ∀ i : Nat, readBytes (a :: l) (i + 1) n = readBytes l i n := by
  induction n with
  | zero => intro i; rfl
  | succ m ih =>
    intro i
    simp only [readBytes, byteAt_cons_succ]
    rw [ih (i + 1)]

theorem readBytes_append (bs rest : List Nat) (h : ∀ b ∈ bs, b < 256) :
    readBytes (bs ++ rest) 0 bs.length = bs := by
  induction bs with
  | nil => rfl
  | cons b bs ih =>
    simp only [List.cons_append, List.length_cons, readBytes, byteAt_cons_zero]
    rw [readBytes_cons, Nat.mod_eq_of_lt (h b (List.mem_cons_self b bs)),
      ih fun x hx => h x (List.mem_cons_of_mem b hx)]

theorem lor_shift5 (t s : Nat) (ht : t < 8) (hs : s < 32) :
    Nat.lor (t <<< 5) s = 32 * t + s := by
  have h : ∀ (a : Fin 8) (b : Fin 32), Nat.lor (a.val <<< 5) b.val = 32 * a.val + b.val := by decide
  exact h ⟨t, ht⟩ ⟨s, hs⟩

theorem observeDecodeLoop_steps_le (d : ObservedData) :
    ∀ (fuel index : Nat) (acc : List Value) (steps : Nat),
      (observeDecodeLoop d fuel index acc steps).2 ≤ steps + fuel := by
  intro fuel
  induction fuel with
  | zero => intro index acc steps; simp [observeDecodeLoop]
  | succ n ih =>
    intro index acc steps
    unfold observeDecodeLoop
    split
    · simp
    · cases hdec : pb_module_ble_decode d.data index with
      | error e => simp
      | ok p =>
        obtain ⟨v, index2⟩ := p
        have h := ih index2 (v :: acc) (steps + 1)
        show (observeDecodeLoop d n index2 (v :: acc) (steps + 1)).2 ≤ steps + (n + 1)
        omega

/-- C7: the read loop of pb_module_ble_observe terminates after at most
OBSERVED_DATA_MAX_SIZE = 26 decode steps for every stored entry, including
entries whose size field is corrupted or exceeds the capacity, and it stops
decoding as soon as the cursor reaches the stored size. -/
theorem observe_read_terminates (d : ObservedData) :
    (pb_module_ble_observe_read d).2 ≤ OBSERVED_DATA_MAX_SIZE ∧
    (∀ (fuel index : Nat) (acc : List Value) (steps : Nat), d.size ≤ index →
      observeDecodeLoop d fuel index acc steps = (Except.ok acc.reverse, steps)) := by
  constructor
  · have h := observeDecodeLoop_steps_le d OBSERVED_DATA_MAX_SIZE 0 [] 0
    simpa [pb_module_ble_observe_read] using h
  · intro fuel index acc steps hle
    cases fuel with
    | zero => rfl
    | succ n =>
      unfold observeDecodeLoop
      rw [if_pos hle]

theorem observe_read_terminates_witness :
    (pb_module_ble_observe_read zeroObservedData).2 ≤ OBSERVED_DATA_MAX_SIZE ∧
    observeDecodeLoop zeroObservedData 5 3 [] 0 = (Except.ok [], 0) :=
  ⟨(observe_read_terminates zeroObservedData).1,
   (observe_read_terminates zeroObservedData).2 5 3 [] 0 (by decide)⟩

/-- C9: pb_type_BLE_cleanup stops driver broadcasting and observing, releases
the observation table (clears the observed_data pointer and zeroes
num_observed_data), and afterwards pb_module_ble_observe fails with
PBIO_ERROR_INVALID_ARG for every channel instead of reading freed storage. -/
theorem cleanup_stops_and_invalidates (st : BleGlobals) (channel : Int) :
    (pb_type_BLE_cleanup st).broadcasting = false ∧
    (pb_type_BLE_cleanup st).observing = false ∧
    (pb_type_BLE_cleanup st).observed_data = Option.none ∧
    (pb_type_BLE_cleanup st).num_observed_data = 0 ∧
    pb_module_ble_observe (pb_type_BLE_cleanup st) channel = Except.error PbError.invalidArg := by
  refine ⟨rfl, rfl, rfl, rfl, ?_⟩
  unfold pb_module_ble_observe pb_type_BLE_cleanup
  rw [if_pos]
  simp only []
  omega

/-- C8: pb_module_ble_observe rejects every channel at least
num_observed_data with PBIO_ERROR_INVALID_ARG before enabling observing or
reading the table, and pb_type_BLE_new rejects any channel argument outside
0..15 (in particular broadcast_channel = 16) with ValueError before creating
an instance. -/
theorem out_of_range_rejected (st : BleGlobals) (channel bc lo : Int) :
    ((st.num_observed_data : Int) ≤ channel →
      pb_module_ble_observe st channel = Except.error PbError.invalidArg) ∧
    ((bc < 0 ∨ 15 < bc ∨ lo < 0 ∨ 15 < lo) →
      pb_type_BLE_new bc lo = Except.error PbError.valueError) := by
  constructor
  · intro h
    unfold pb_module_ble_observe
    rw [if_pos (Or.inr h)]
  · intro h
    unfold pb_type_BLE_new
    have hmax : ((MAX_CHANNEL_NUMBER : Nat) : Int) = 15 := by norm_num [MAX_CHANNEL_NUMBER]
    by_cases hbc : bc < 0 ∨ ((MAX_CHANNEL_NUMBER : Nat) : Int) < bc
    · rw [if_pos hbc]
    · rw [if_neg hbc, if_pos]
      rw [hmax]
      rw [hmax] at hbc
      omega

theorem out_of_range_rejected_witness :
    pb_module_ble_observe ⟨some [zeroObservedData], 1, false, false⟩ 1 =
      Except.error PbError.invalidArg ∧
    pb_type_BLE_new 16 0 = Except.error PbError.valueError :=
  ⟨(out_of_range_rejected ⟨some [zeroObservedData], 1, false, false⟩ 1 0 0).1 (by norm_num),
   (out_of_range_rejected ⟨some [zeroObservedData], 1, false, false⟩ 1 16 0).2 (by norm_num)⟩

/-- C10: a negative channel argument makes pb_module_ble_observe fail with
PBIO_ERROR_INVALID_ARG before any table access, exactly as a too-large
channel does: it is never wrapped or used as an index. -/
theorem negative_channel_rejected (st : BleGlobals) (channel : Int) (h : channel < 0) :
    pb_module_ble_observe st channel = Except.error PbError.invalidArg ∧
    pb_module_ble_observe st channel =
      pb_module_ble_observe st (st.num_observed_data : Int) := by
  have h1 : pb_module_ble_observe st channel = Except.error PbError.invalidArg := by
    unfold pb_module_ble_observe
    rw [if_pos (Or.inl h)]
  have h2 : pb_module_ble_observe st (st.num_observed_data : Int) =
      Except.error PbError.invalidArg := by
    unfold pb_module_ble_observe
    rw [if_pos (Or.inr (le_refl _))]
  exact ⟨h1, h1.trans h2.symm⟩

theorem negative_channel_rejected_witness :
    pb_module_ble_observe ⟨some [zeroObservedData], 1, false, false⟩ (-1) =
      Except.error PbError.invalidArg ∧
    pb_module_ble_observe ⟨some [zeroObservedData], 1, false, false⟩ (-1) =
      pb_module_ble_observe ⟨some [zeroObservedData], 1, false, false⟩ ((1 : Nat) : Int) :=
  negative_channel_rejected ⟨some [zeroObservedData], 1, false, false⟩ (-1) (by norm_num)

/-- C1 (allocation defect): for every valid construction, pb_type_BLE_new
passes last_observe_channel (not last_observe_channel + 1) to
mp_obj_malloc_var, so the table holds only max_observe_channel slots while
num_observed_data records max_observe_channel + 1 accepted channels: the
highest accepted channel has no allocated slot. -/
theorem construct_allocates_one_slot_short (bc lo : Int)
    (h1 : 0 ≤ bc) (h2 : bc ≤ 15) (h3 : 0 ≤ lo) (h4 : lo ≤ 15) :
    ∃ (inst : BleInstance) (g : BleGlobals),
      pb_type_BLE_new bc lo = Except.ok (inst, g) ∧
      inst.allocated_slots = lo.toNat ∧
      g.num_observed_data = lo.toNat + 1 ∧
      (g.observed_data.getD []).length < g.num_observed_data := by
  unfold pb_type_BLE_new
  have hmax : ((MAX_CHANNEL_NUMBER : Nat) : Int) = 15 := by norm_num [MAX_CHANNEL_NUMBER]
  rw [if_neg (by rw [hmax]; omega), if_neg (by rw [hmax]; omega)]
  refine ⟨_, _, rfl, rfl, rfl, ?_⟩
  simp [mp_obj_malloc_var_slots]

theorem construct_allocates_one_slot_short_witness :
    ∃ (inst : BleInstance) (g : BleGlobals),
      pb_type_BLE_new 0 0 = Except.ok (inst, g) ∧
      inst.allocated_slots = (0 : Int).toNat ∧
      g.num_observed_data = (0 : Int).toNat + 1 ∧
      (g.observed_data.getD []).length < g.num_observed_data :=
  construct_allocates_one_slot_short 0 0 (by norm_num) (by norm_num) (by norm_num) (by norm_num)

theorem list_getD_set_ne {α : Type} (l : List α) (i j : Nat) (a d : α) (h : i ≠ j) :
    (l.set i a).getD j d = l.getD j d := by
  simp [List.getD_eq_getElem?_getD, List.getElem?_set_ne h]

theorem list_getD_set_self {α : Type} (l : List α) (i : Nat) (a d : α) (h : i < l.length) :
    (l.set i a).getD i d = a := by
  simp [List.getD_eq_getElem?_getD, List.getElem?_set_eq_of_lt a h]

/-- C3: the observation table is overwritten exactly when the advertisement is
a non-connectable undirected PDU of length at least 5 carrying the
manufacturer-specific marker at byte 1, the LEGO company id at bytes 2..3
little-endian, and a channel byte below num_observed_data; the overwrite
replaces only that channel's slot with rssi from the report, size =
byte 0 minus 4 (uint8 arithmetic), and a data buffer whose first
min(size, 26) bytes are copied from raw[5..] (the memcpy fills all 26 bytes
of capacity from raw[5..], so the previous slot contents are gone: last
writer wins); every other channel's slot is unchanged.  The hypothesis fixes
the table length at num_observed_data, the allocation intended at
construction. -/
theorem callback_overwrites_exactly_matching_channel (st : BleGlobals) (event_type : Nat)
    (raw : List Nat) (length : Nat) (rssi : Int)
    (hlen : (st.observed_data.getD []).length = st.num_observed_data) :
    (¬ adMatch st event_type raw length →
      handle_observe_event st event_type raw length rssi = st) ∧
    (adMatch st event_type raw length →
      handle_observe_event st event_type raw length rssi =
        { st with observed_data := some ((st.observed_data.getD []).set (byteAt raw 4) (newEntry raw rssi)) } ∧
      (newEntry raw rssi).rssi = rssi ∧
      (newEntry raw rssi).size = (byteAt raw 0 + 252) % 256 ∧
      (newEntry raw rssi).data.length = OBSERVED_DATA_MAX_SIZE ∧
      (∀ k, k < min (newEntry raw rssi).size OBSERVED_DATA_MAX_SIZE →
        (newEntry raw rssi).data.getD k 0 = byteAt raw (5 + k)) ∧
      ((st.observed_data.getD []).set (byteAt raw 4) (newEntry raw rssi)).getD
          (byteAt raw 4) zeroObservedData = newEntry raw rssi ∧
      (∀ j, j ≠ byteAt raw 4 →
        ((st.observed_data.getD []).set (byteAt raw 4) (newEntry raw rssi)).getD
            j zeroObservedData =
          (st.observed_data.getD []).getD j zeroObservedData)) := by
  constructor
  · intro hnot
    unfold handle_observe_event
    by_cases houter : event_type = PBDRV_BLUETOOTH_AD_TYPE_ADV_NONCONN_IND ∧ 5 ≤ length ∧
        byteAt raw 1 = MFG_SPECIFIC ∧ pbio_get_uint16_le raw 2 = LEGO_CID
    · rw [if_pos houter, if_pos]
      by_contra hch
      push_neg at hch
      exact hnot ⟨houter.1, houter.2.1, houter.2.2.1, houter.2.2.2, hch⟩
    · rw [if_neg houter]
  · intro hm
    obtain ⟨h1, h2, h3, h4, h5⟩ := hm
    refine ⟨?_, rfl, rfl, ?_, ?_, ?_, ?_⟩
    · unfold handle_observe_event
      rw [if_pos ⟨h1, h2, h3, h4⟩, if_neg (by omega)]
    · simp [newEntry, OBSERVED_DATA_MAX_SIZE]
    · intro k hk
      have hk26 : k < 26 := lt_of_lt_of_le hk (min_le_right _ _)
      simp [newEntry, OBSERVED_DATA_MAX_SIZE, List.getD_eq_getElem?_getD,
        List.getElem?_map, List.getElem?_range, hk26]
    · exact list_getD_set_self _ _ _ _ (by omega)
    · intro j hj
      exact list_getD_set_ne _ _ _ _ _ (Ne.symm hj)
theorem callback_overwrites_witness :
    handle_observe_event ⟨some [zeroObservedData], 1, false, false⟩ 3
        [7, 255, 151, 3, 0, 32, 97, 5] 9 (-40) =
      ⟨some [newEntry [7, 255, 151, 3, 0, 32, 97, 5] (-40)], 1, false, false⟩ := by
  have h := (callback_overwrites_exactly_matching_channel
    ⟨some [zeroObservedData], 1, false, false⟩ 3 [7, 255, 151, 3, 0, 32, 97, 5] 9 (-40)
    (by rfl)).2 (by unfold adMatch; decide)
  exact h.1.trans (by decide)

/-- C4 counterexample: a stored Float record whose 5-bit length field is 3
(header 131 = 4 <<< 5 ||| 3) is decoded successfully as a float instead of
failing with the corrupt-data error the claim requires: the C switch case for
Float never checks the size field. -/
theorem decode_float_bad_length_accepted :
    pb_module_ble_decode [131, 0, 0, 0, 0] 0 = Except.ok (Value.float 0, 5) := by decide

/-- C4 (amended): decode fails with the generic corrupt-data RuntimeError for
the undefined tag 7 and for an Int record whose length is not 1, 2 or 4; a
Float record, however, is decoded by reading 4 payload bytes regardless of
its 5-bit length field. -/
theorem decode_rejects_bad_tag_and_int_length (data : List Nat) (index : Nat) :
    (byteAt data index / 32 = 7 →
      pb_module_ble_decode data index = Except.error PbError.runtimeError) ∧
    (byteAt data index / 32 = 3 → byteAt data index % 32 ≠ 1 →
      byteAt data index % 32 ≠ 2 → byteAt data index % 32 ≠ 4 →
      pb_module_ble_decode data index = Except.error PbError.runtimeError) ∧
    (byteAt data index / 32 = 4 →
      pb_module_ble_decode data index =
        Except.ok (Value.float (pbio_get_uint32_le data (index + 1)), index + 5)) := by
  refine ⟨?_, ?_, ?_⟩
  · intro h7
    unfold pb_module_ble_decode
    rw [h7]
    norm_num
  · intro h3 hn1 hn2 hn4
    unfold pb_module_ble_decode
    rw [h3]
    norm_num [hn1, hn2, hn4]
  · intro h4
    unfold pb_module_ble_decode
    rw [h4]
    norm_num

theorem decode_rejects_bad_tag_witness :
    pb_module_ble_decode [224] 0 = Except.error PbError.runtimeError ∧
    pb_module_ble_decode [99, 1, 2, 3] 0 = Except.error PbError.runtimeError ∧
    pb_module_ble_decode [131, 9, 9, 9, 9] 0 =
      Except.ok (Value.float (pbio_get_uint32_le [131, 9, 9, 9, 9] 1), 5) :=
  ⟨(decode_rejects_bad_tag_and_int_length [224] 0).1 (by decide),
   (decode_rejects_bad_tag_and_int_length [99, 1, 2, 3] 0).2.1 (by decide) (by decide)
     (by decide) (by decide),
   (decode_rejects_bad_tag_and_int_length [131, 9, 9, 9, 9] 0).2.2 (by decide)⟩
/-- C5: pb_module_ble_encode picks the smallest of the widths 1, 2, 4 whose
signed two's-complement range holds the integer, writes the value
little-endian after the Int-tag header byte, and raises OverflowError for
every integer outside the 32-bit signed range. -/
theorem encode_int_width_selection (v : Int) :
    ((-2147483648 ≤ v ∧ v ≤ 2147483647) →
      pb_module_ble_encode 0 (Value.int v) =
        Except.ok (Nat.lor (3 <<< 5) (intWidth v) :: intToLeBytes v (intWidth v),
          intWidth v + 1) ∧
      fitsWidth v (intWidth v) ∧
      (∀ w, (w = 1 ∨ w = 2 ∨ w = 4) → fitsWidth v w → intWidth v ≤ w)) ∧
    ((v < -2147483648 ∨ 2147483647 < v) →
      pb_module_ble_encode 0 (Value.int v) = Except.error PbError.overflowError) := by
  have f1 : fitsWidth v 1 ↔ (-128 ≤ v ∧ v < 128) := by unfold fitsWidth; norm_num
  have f2 : fitsWidth v 2 ↔ (-32768 ≤ v ∧ v < 32768) := by unfold fitsWidth; norm_num
  have f4 : fitsWidth v 4 ↔ (-2147483648 ≤ v ∧ v < 2147483648) := by unfold fitsWidth; norm_num
  constructor
  · intro h32
    by_cases h1 : -128 ≤ v ∧ v ≤ 127
    · have hw : intWidth v = 1 := by unfold intWidth; rw [if_pos h1]
      rw [hw]
      refine ⟨?_, f1.mpr (by omega), ?_⟩
      · simp only [pb_module_ble_encode]
        rw [if_pos h1]
        simp only [pb_module_ble_append, intToLeBytes_length]
        norm_num [OBSERVED_DATA_MAX_SIZE]
      · intro w hw2 hfits
        omega
    · by_cases h2 : -32768 ≤ v ∧ v ≤ 32767
      · have hw : intWidth v = 2 := by unfold intWidth; rw [if_neg h1, if_pos h2]
        rw [hw]
        refine ⟨?_, f2.mpr (by omega), ?_⟩
        · simp only [pb_module_ble_encode]
          rw [if_neg h1, if_pos h2]
          simp only [pb_module_ble_append, intToLeBytes_length]
          norm_num [OBSERVED_DATA_MAX_SIZE]
        · intro w hw2 hfits
          rcases hw2 with h | h | h
          · exfalso
            rw [h, f1] at hfits
            omega
          · omega
          · omega
      · have h3 : -2147483648 ≤ v ∧ v ≤ 2147483647 := h32
        have hw : intWidth v = 4 := by unfold intWidth; rw [if_neg h1, if_neg h2]
        rw [hw]
        refine ⟨?_, f4.mpr (by omega), ?_⟩
        · simp only [pb_module_ble_encode]
          rw [if_neg h1, if_neg h2, if_pos h3]
          simp only [pb_module_ble_append, intToLeBytes_length]
          norm_num [OBSERVED_DATA_MAX_SIZE]
        · intro w hw2 hfits
          rcases hw2 with h | h | h
          · exfalso
            rw [h, f1] at hfits
            omega
          · exfalso
            rw [h, f2] at hfits
            omega
          · omega
  · intro hout
    simp only [pb_module_ble_encode]
    rw [if_neg (by omega), if_neg (by omega), if_neg (by omega)]

theorem encode_int_width_selection_witness :
    pb_module_ble_encode 0 (Value.int 127) = Except.ok ([97, 127], 2) ∧
    pb_module_ble_encode 0 (Value.int 128) = Except.ok ([98, 128, 0], 3) ∧
    pb_module_ble_encode 0 (Value.int 32767) = Except.ok ([98, 255, 127], 3) ∧
    pb_module_ble_encode 0 (Value.int 32768) = Except.ok ([100, 0, 128, 0, 0], 5) ∧
    pb_module_ble_encode 0 (Value.int 2147483648) = Except.error PbError.overflowError :=
  ⟨(((encode_int_width_selection 127).1 (by norm_num)).1).trans (by decide),
   (((encode_int_width_selection 128).1 (by norm_num)).1).trans (by decide),
   (((encode_int_width_selection 32767).1 (by norm_num)).1).trans (by decide),
   (((encode_int_width_selection 32768).1 (by norm_num)).1).trans (by decide),
   (encode_int_width_selection 2147483648).2 (by norm_num)⟩
theorem pb_append_fit (i : Nat) (src : List Nat) (t : Nat) (h : i + src.length + 1 ≤ 26) :
    pb_module_ble_append i src t =
      Except.ok (Nat.lor (t <<< 5) src.length :: src, i + src.length + 1) := by
  simp only [pb_module_ble_append]
  rw [if_neg (by simp only [OBSERVED_DATA_MAX_SIZE]; omega)]

theorem pb_append_overflow (i : Nat) (src : List Nat) (t : Nat) (h : 26 < i + src.length + 1) :
    pb_module_ble_append i src t = Except.error PbError.valueError := by
  simp only [pb_module_ble_append]
  rw [if_pos (by simp only [OBSERVED_DATA_MAX_SIZE]; omega)]

theorem append_shift (src : List Nat) (t : Nat) (r : List Nat) (n : Nat)
    (h : pb_module_ble_append 0 src t = Except.ok (r, n)) (i : Nat) :
    n = r.length ∧
    (i + r.length ≤ 26 → pb_module_ble_append i src t = Except.ok (r, i + r.length)) ∧
    (26 < i + r.length → pb_module_ble_append i src t = Except.error PbError.valueError) := by
  rcases (by omega : 0 + src.length + 1 ≤ 26 ∨ 26 < 0 + src.length + 1) with hf | hf
  · rw [pb_append_fit 0 src t hf] at h
    rw [Except.ok.injEq, Prod.mk.injEq] at h
    obtain ⟨hr, hn⟩ := h
    have hrlen : r.length = src.length + 1 := by rw [← hr]; simp
    refine ⟨by omega, ?_, ?_⟩
    · intro hle
      rw [pb_append_fit i src t (by omega)]
      rw [show i + src.length + 1 = i + r.length from by omega, hr]
    · intro hgt
      exact pb_append_overflow i src t (by omega)
  · rw [pb_append_overflow 0 src t hf] at h
    simp at h

theorem encode_shift (a : Value) (r : List Nat) (n : Nat)
    (h : pb_module_ble_encode 0 a = Except.ok (r, n)) (i : Nat) :
    n = r.length ∧
    (i + r.length ≤ 26 → pb_module_ble_encode i a = Except.ok (r, i + r.length)) ∧
    (26 < i + r.length → pb_module_ble_encode i a = Except.error PbError.valueError) := by
  cases a with
  | none => exact append_shift [] 0 r n h i
  | vtrue => exact append_shift [] 1 r n h i
  | vfalse => exact append_shift [] 2 r n h i
  | int v =>
    by_cases h1 : -128 ≤ v ∧ v ≤ 127
    · have key : ∀ j : Nat, pb_module_ble_encode j (Value.int v) =
          pb_module_ble_append j (intToLeBytes v 1) 3 := by
        intro j
        simp only [pb_module_ble_encode]
        rw [if_pos h1]
      rw [key 0] at h
      rw [key i]
      exact append_shift (intToLeBytes v 1) 3 r n h i
    · by_cases h2 : -32768 ≤ v ∧ v ≤ 32767
      · have key : ∀ j : Nat, pb_module_ble_encode j (Value.int v) =
            pb_module_ble_append j (intToLeBytes v 2) 3 := by
          intro j
          simp only [pb_module_ble_encode]
          rw [if_neg h1, if_pos h2]
        rw [key 0] at h
        rw [key i]
        exact append_shift (intToLeBytes v 2) 3 r n h i
      · by_cases h3 : -2147483648 ≤ v ∧ v ≤ 2147483647
        · have key : ∀ j : Nat, pb_module_ble_encode j (Value.int v) =
              pb_module_ble_append j (intToLeBytes v 4) 3 := by
            intro j
            simp only [pb_module_ble_encode]
            rw [if_neg h1, if_neg h2, if_pos h3]
          rw [key 0] at h
          rw [key i]
          exact append_shift (intToLeBytes v 4) 3 r n h i
        · have key : pb_module_ble_encode 0 (Value.int v) =
              Except.error PbError.overflowError := by
            simp only [pb_module_ble_encode]
            rw [if_neg h1, if_neg h2, if_neg h3]
          rw [key] at h
          simp at h
  | float bits => exact append_shift (natToLeBytes bits 4) 4 r n h i
  | str bs => exact append_shift bs 5 r n h i
  | bytes bs => exact append_shift bs 6 r n h i

theorem encodeAllFrom_cons_error (i : Nat) (a : Value) (rest : List Value) (e : PbError)
    (h : pb_module_ble_encode i a = Except.error e) :
    encodeAllFrom i (a :: rest) = Except.error e := by
  unfold encodeAllFrom
  rw [h]

theorem encodeAllFrom_cons_ok_error (i : Nat) (a : Value) (rest : List Value)
    (r : List Nat) (n : Nat) (e : PbError)
    (h : pb_module_ble_encode i a = Except.ok (r, n))
    (h2 : encodeAllFrom n rest = Except.error e) :
    encodeAllFrom i (a :: rest) = Except.error e := by
  unfold encodeAllFrom
  simp only [h, h2]

theorem encodeAllFrom_overflow (args : List Value) :
    ∀ i : Nat, i ≤ 26 →
    (∀ a ∈ args, ∃ r n, pb_module_ble_encode 0 a = Except.ok (r, n)) →
    26 < i + (args.map recordLen).sum →
    encodeAllFrom i args = Except.error PbError.valueError := by
  induction args with
  | nil =>
    intro i hi _ hsum
    exact absurd hi (by simp at hsum; omega)
  | cons a rest ih =>
    intro i hi hall hsum
    obtain ⟨r, n, hr⟩ := hall a (List.mem_cons_self a rest)
    have hshift := encode_shift a r n hr i
    have hrl : recordLen a = r.length := by unfold recordLen; rw [hr]
    rw [List.map_cons, List.sum_cons, hrl] at hsum
    by_cases hfit : i + r.length ≤ 26
    · have henc := hshift.2.1 hfit
      have hrec := ih (i + r.length) hfit
        (fun x hx => hall x (List.mem_cons_of_mem a hx)) (by omega)
      exact encodeAllFrom_cons_ok_error i a rest r (i + r.length) PbError.valueError henc hrec
    · have henc := hshift.2.2 (by omega)
      rw [encodeAllFrom_cons_error i a rest PbError.valueError henc]

/-- C6: when the arguments of a broadcast call are each encodable on their
own but their total encoded size exceeds the 26-byte payload budget, the call
fails with ValueError at the first record that overflows the running index
and no driver broadcast request is issued: the driver state is unchanged. -/
theorem broadcast_over_budget_fails (st : BleGlobals) (broadcast_channel : Nat)
    (args : List Value)
    (hall : ∀ a ∈ args, ∃ r n, pb_module_ble_encode 0 a = Except.ok (r, n))
    (hsum : 26 < (args.map recordLen).sum) :
    pb_module_ble_broadcast st broadcast_channel args = Except.error PbError.valueError ∧
    broadcastStep st broadcast_channel args = st := by
  have h := encodeAllFrom_overflow args 0 (by omega) hall (by omega)
  constructor
  · unfold pb_module_ble_broadcast
    rw [h]
  · unfold broadcastStep pb_module_ble_broadcast
    rw [h]

theorem broadcast_over_budget_fails_witness :
    pb_module_ble_broadcast ⟨some [zeroObservedData], 1, false, false⟩ 0
        (List.replicate 14 (Value.int 0)) = Except.error PbError.valueError ∧
    broadcastStep ⟨some [zeroObservedData], 1, false, false⟩ 0
        (List.replicate 14 (Value.int 0)) = ⟨some [zeroObservedData], 1, false, false⟩ :=
  broadcast_over_budget_fails ⟨some [zeroObservedData], 1, false, false⟩ 0
    (List.replicate 14 (Value.int 0))
    (fun a ha => ⟨[97, 0], 2, by rw [List.eq_of_mem_replicate ha]; decide⟩)
    (by decide)
theorem append_ok_inv (src : List Nat) (t : Nat) (r : List Nat) (n : Nat)
    (h : pb_module_ble_append 0 src t = Except.ok (r, n)) :
    r = Nat.lor (t <<< 5) src.length :: src ∧ n = src.length + 1 ∧ src.length + 1 ≤ 26 := by
  rcases (le_or_lt (0 + src.length + 1) 26) with hf | hf
  · rw [pb_append_fit 0 src t hf] at h
    rw [Except.ok.injEq, Prod.mk.injEq] at h
    obtain ⟨h1, h2⟩ := h
    exact ⟨h1.symm, by omega, by omega⟩
  · rw [pb_append_overflow 0 src t (by omega)] at h
    simp at h

theorem intToLeBytes_one (v : Int) : intToLeBytes v 1 = [(v % 256).toNat % 256] := by
  simp only [intToLeBytes]
  norm_num [natToLeBytes]

theorem intToLeBytes_two (v : Int) :
    intToLeBytes v 2 = [(v % 65536).toNat % 256, (v % 65536).toNat / 256 % 256] := by
  simp only [intToLeBytes]
  norm_num [natToLeBytes]

theorem intToLeBytes_four (v : Int) :
    intToLeBytes v 4 = [(v % 4294967296).toNat % 256, (v % 4294967296).toNat / 256 % 256,
      (v % 4294967296).toNat / 256 / 256 % 256, (v % 4294967296).toNat / 256 / 256 / 256 % 256] := by
  simp only [intToLeBytes]
  norm_num [natToLeBytes]

theorem natToLeBytes_four_eq (u : Nat) :
    natToLeBytes u 4 = [u % 256, u / 256 % 256, u / 256 / 256 % 256, u / 256 / 256 / 256 % 256] := by
  norm_num [natToLeBytes]

theorem readBytes_one (a : Nat) (l : List Nat) (n : Nat) :
    readBytes (a :: l) 1 n = readBytes l 0 n :=
  readBytes_cons a l n 0
/-- C2: for every well-formed value of the seven encodable kinds, decoding
the record produced by encode (followed by any trailing bytes) yields the
same value and advances the cursor by exactly the record's length, one
header byte plus the payload. -/
theorem encode_decode_roundtrip (v : Value) (rec : List Nat) (n : Nat) (rest : List Nat)
    (hv : validValue v = true)
    (henc : pb_module_ble_encode 0 v = Except.ok (rec, n)) :
    n = rec.length ∧ pb_module_ble_decode (rec ++ rest) 0 = Except.ok (v, rec.length) := by
  cases v with
  | none =>
    obtain ⟨hrec, hn, _⟩ := append_ok_inv [] 0 rec n henc
    rw [show Nat.lor (0 <<< 5) (List.length ([] : List Nat)) = 0 from by decide] at hrec
    subst hrec; subst hn
    refine ⟨by simp, ?_⟩
    simp only [List.cons_append, List.nil_append]
    unfold pb_module_ble_decode
    rw [byteAt_cons_zero]
    norm_num
  | vtrue =>
    obtain ⟨hrec, hn, _⟩ := append_ok_inv [] 1 rec n henc
    rw [show Nat.lor (1 <<< 5) (List.length ([] : List Nat)) = 32 from by decide] at hrec
    subst hrec; subst hn
    refine ⟨by simp, ?_⟩
    simp only [List.cons_append, List.nil_append]
    unfold pb_module_ble_decode
    rw [byteAt_cons_zero]
    norm_num
  | vfalse =>
    obtain ⟨hrec, hn, _⟩ := append_ok_inv [] 2 rec n henc
    rw [show Nat.lor (2 <<< 5) (List.length ([] : List Nat)) = 64 from by decide] at hrec
    subst hrec; subst hn
    refine ⟨by simp, ?_⟩
    simp only [List.cons_append, List.nil_append]
    unfold pb_module_ble_decode
    rw [byteAt_cons_zero]
    norm_num
  | int w =>
    simp only [pb_module_ble_encode] at henc
    by_cases h1 : -128 ≤ w ∧ w ≤ 127
    · rw [if_pos h1] at henc
      obtain ⟨hrec, hn, _⟩ := append_ok_inv (intToLeBytes w 1) 3 rec n henc
      rw [intToLeBytes_length] at hrec hn
      rw [show Nat.lor (3 <<< 5) 1 = 97 from by decide, intToLeBytes_one] at hrec
      subst hrec; subst hn
      refine ⟨by simp, ?_⟩
      simp only [List.cons_append, List.nil_append]
      unfold pb_module_ble_decode
      rw [byteAt_cons_zero]
      norm_num [byteAt_cons_succ, byteAt_cons_zero]
      unfold int8OfByte
      split <;> omega
    · by_cases h2 : -32768 ≤ w ∧ w ≤ 32767
      · rw [if_neg h1, if_pos h2] at henc
        obtain ⟨hrec, hn, _⟩ := append_ok_inv (intToLeBytes w 2) 3 rec n henc
        rw [intToLeBytes_length] at hrec hn
        rw [show Nat.lor (3 <<< 5) 2 = 98 from by decide, intToLeBytes_two] at hrec
        subst hrec; subst hn
        refine ⟨by simp, ?_⟩
        simp only [List.cons_append, List.nil_append]
        unfold pb_module_ble_decode
        rw [byteAt_cons_zero]
        norm_num [pbio_get_uint16_le, byteAt_cons_succ, byteAt_cons_zero]
        unfold int16OfU16
        split <;> omega
      · by_cases h3 : -2147483648 ≤ w ∧ w ≤ 2147483647
        · rw [if_neg h1, if_neg h2, if_pos h3] at henc
          obtain ⟨hrec, hn, _⟩ := append_ok_inv (intToLeBytes w 4) 3 rec n henc
          rw [intToLeBytes_length] at hrec hn
          rw [show Nat.lor (3 <<< 5) 4 = 100 from by decide, intToLeBytes_four] at hrec
          subst hrec; subst hn
          refine ⟨by simp, ?_⟩
          simp only [List.cons_append, List.nil_append]
          unfold pb_module_ble_decode
          rw [byteAt_cons_zero]
          norm_num [pbio_get_uint32_le, byteAt_cons_succ, byteAt_cons_zero]
          unfold int32OfU32
          split <;> omega
        · rw [if_neg h1, if_neg h2, if_neg h3] at henc
          simp at henc
  | float bits =>
    have hb : bits < 4294967296 := by simpa [validValue] using hv
    obtain ⟨hrec, hn, _⟩ := append_ok_inv (natToLeBytes bits 4) 4 rec n henc
    rw [natToLeBytes_length] at hrec hn
    rw [show Nat.lor (4 <<< 5) 4 = 132 from by decide, natToLeBytes_four_eq] at hrec
    subst hrec; subst hn
    refine ⟨by simp, ?_⟩
    simp only [List.cons_append, List.nil_append]
    unfold pb_module_ble_decode
    rw [byteAt_cons_zero]
    norm_num [pbio_get_uint32_le, byteAt_cons_succ, byteAt_cons_zero]
    omega
  | str bs =>
    have hall : ∀ b ∈ bs, b < 256 := by simpa [validValue, List.all_eq_true] using hv
    obtain ⟨hrec, hn, hfit⟩ := append_ok_inv bs 5 rec n henc
    rw [lor_shift5 5 bs.length (by norm_num) (by omega)] at hrec
    subst hrec; subst hn
    refine ⟨by simp, ?_⟩
    simp only [List.cons_append, List.length_cons]
    unfold pb_module_ble_decode
    rw [byteAt_cons_zero]
    rw [show (160 + bs.length) % 256 % 32 = bs.length from by omega,
        show (160 + bs.length) % 256 / 32 = 5 from by omega]
    norm_num
    rw [readBytes_one, readBytes_append bs rest hall]
    rw [Nat.add_comm 1 bs.length]
    exact ⟨rfl, rfl⟩
  | bytes bs =>
    have hall : ∀ b ∈ bs, b < 256 := by simpa [validValue, List.all_eq_true] using hv
    obtain ⟨hrec, hn, hfit⟩ := append_ok_inv bs 6 rec n henc
    rw [lor_shift5 6 bs.length (by norm_num) (by omega)] at hrec
    subst hrec; subst hn
    refine ⟨by simp, ?_⟩
    simp only [List.cons_append, List.length_cons]
    unfold pb_module_ble_decode
    rw [byteAt_cons_zero]
    rw [show (192 + bs.length) % 256 % 32 = bs.length from by omega,
        show (192 + bs.length) % 256 / 32 = 6 from by omega]
    norm_num
    rw [readBytes_one, readBytes_append bs rest hall]
    rw [Nat.add_comm 1 bs.length]
    exact ⟨rfl, rfl⟩

theorem encode_decode_roundtrip_witness :
    (3 : Nat) = [162, 104, 105].length ∧
    pb_module_ble_decode ([162, 104, 105] ++ [7, 7]) 0 =
      Except.ok (Value.str [104, 105], [162, 104, 105].length) :=
  encode_decode_roundtrip (Value.str [104, 105]) [162, 104, 105] 3 [7, 7]
    (by decide) (by decide)
